import Mathlib

/-!
Shallow embedding of the `pigeon` messaging server
(crates/pigeon-server/src/lib.rs and src/main.rs).

The shared state is a user directory (`HashMap<String, String>`,
username → bcrypt hash) together with a message log
(`BTreeMap<u64, Vec<Message>>`, timestamp → messages posted at that
second).  The `HashMap` is modelled as an association list with
first-match lookup; the `BTreeMap` as an association list whose keys
are kept strictly increasing.  The bcrypt hash function (external
crate, fallible) is a parameter `bhash`; the wall clock is passed in
as `Except Unit Nat` (`UNIX_EPOCH.elapsed()` can fail).
-/

set_option autoImplicit false

namespace Pigeon

/-- Decidable equality for `Except`, used to evaluate handler outcomes on
concrete inputs. -/
instance {ε α : Type} [DecidableEq ε] [DecidableEq α] : DecidableEq (Except ε α) :=
  fun a b =>
    match a, b with
    | .error e, .error f =>
      if h : e = f then isTrue (by rw [h]) else isFalse (fun hc => h (by cases hc; rfl))
    | .error _, .ok _ => isFalse (fun hc => Except.noConfusion hc)
    | .ok _, .error _ => isFalse (fun hc => Except.noConfusion hc)
    | .ok x, .ok y =>
      if h : x = y then isTrue (by rw [h]) else isFalse (fun hc => h (by cases hc; rfl))

/-- `Message` from lib.rs: author, content and a (possibly empty) recipient
list. An empty `recipients` corresponds to the JSON-absent/empty case. -/
structure Message where
  author : String
  content : String
  recipients : List String
deriving Repr, DecidableEq

/-- The users `HashMap<String, String>` modelled as an association list. -/
abbrev Users := List (String × String)

/-- The messages `BTreeMap<u64, Vec<Message>>` modelled as an association
list with (invariant) strictly increasing keys. -/
abbrev MsgLog := List (Nat × List Message)

/-- `HashMap::contains_key`. -/
def containsKey (m : Users) (k : String) : Bool :=
  match m with
  | [] => false
  | (k2, _) :: rest => k2 == k || containsKey rest k

/-- `HashMap` lookup (`m[k]` / `get`): first entry with the key. -/
def usersGet (m : Users) (k : String) : Option String :=
  match m with
  | [] => none
  | (k2, v) :: rest => if k2 == k then some v else usersGet rest k

/-- `HashMap::insert` (replaces an existing entry, appends otherwise). -/
def usersInsert (m : Users) (k v : String) : Users :=
  match m with
  | [] => [(k, v)]
  | (k2, v2) :: rest =>
    if k2 == k then (k, v) :: rest else (k2, v2) :: usersInsert rest k v

/-- `BTreeMap::entry(t).and_modify(|v| v.push(m)).or_insert_with(|| vec![m])`:
push onto the vector at key `t`, creating a singleton entry (at the sorted
position) when the key is absent. -/
def btreeInsertPush (t : Nat) (m : Message) : MsgLog → MsgLog
  | [] => [(t, [m])]
  | (k, ms) :: rest =>
    if t < k then (t, [m]) :: (k, ms) :: rest
    else if t = k then (k, ms ++ [m]) :: rest
    else (k, ms) :: btreeInsertPush t m rest

/-- The vector stored at key `t` (`[]` when the key is absent). -/
def btreeGet (l : MsgLog) (t : Nat) : List Message :=
  match l with
  | [] => []
  | (k, ms) :: rest => if k = t then ms else btreeGet rest t

/-- `BTreeMap` key invariant: keys strictly increasing in iteration order. -/
abbrev SortedKeys (l : MsgLog) : Prop :=
  List.Pairwise (fun a b => a.1 < b.1) l

/-- `State` from lib.rs. -/
structure State where
  users : Users
  messages : MsgLog
deriving Repr, DecidableEq

/-- `AppError` from lib.rs, together with the clock error that
`UNIX_EPOCH.elapsed()?` propagates through `eyre`. -/
inductive AddErr where
  | nonExistentMessageAuthor
  | clockErr
deriving Repr, DecidableEq

/-- `State::add_message_at_present` from lib.rs: sample the clock, ensure the
author is a known user, then push the message at the sampled timestamp.
The (possibly unchanged) state is returned alongside the outcome. -/
def State.add_message_at_present (clock : Except Unit Nat) (s : State)
    (message : Message) : Except AddErr Unit × State :=
  match clock with
  | .error _ => (.error .clockErr, s)
  | .ok timestamp =>
    if containsKey s.users message.author then
      (.ok (), { s with messages := btreeInsertPush timestamp message s.messages })
    else
      (.error .nonExistentMessageAuthor, s)

/-- Type of the bcrypt hash function `bcrypt::hash_with_salt`
(password, cost, salt) modelled as a parameter; `none` is a hashing
failure (`BcryptError`). -/
abbrev BHash := String → Nat → List Nat → Option String

/-- `auth` from lib.rs: recompute the salted hash for the supplied password
and compare with the stored one; unknown usernames compare `false`. -/
def auth (bhash : BHash) (state : State) (username password : String)
    (cost : Nat) (salt : List Nat) : Except Unit Bool :=
  match bhash password cost salt with
  | none => .error ()
  | some hash =>
    .ok (containsKey state.users username && usersGet state.users username == some hash)

/-- `BCRYPT_COST` from main.rs. -/
def BCRYPT_COST : Nat := 12

/-- `SALT` from main.rs: the bytes of `"Hello, world!!!!"`. -/
def SALT : List Nat :=
  [72, 101, 108, 108, 111, 44, 32, 119, 111, 114, 108, 100, 33, 33, 33, 33]

/-- The axum status codes the handlers return. -/
inductive StatusCode where
  | CONFLICT
  | INTERNAL_SERVER_ERROR
  | UNAUTHORIZED
  | NOT_ACCEPTABLE
deriving Repr, DecidableEq

/-- `register` handler from main.rs: conflict when the username exists,
internal error when hashing fails, otherwise insert the new hash.
Returns the outcome together with the (possibly unchanged) state. -/
def register (bhash : BHash) (state : State) (username password : String) :
    Except StatusCode Unit × State :=
  if containsKey state.users username then
    (.error .CONFLICT, state)
  else
    match bhash password BCRYPT_COST SALT with
    | none => (.error .INTERNAL_SERVER_ERROR, state)
    | some hash => (.ok (), { state with users := usersInsert state.users username hash })

/-- The recipient validation loop in `send`: `NOT_ACCEPTABLE` as soon as a
recipient is not a known user. -/
def checkRecipients (users : Users) : List String → Bool
  | [] => true
  | user :: rest => containsKey users user && checkRecipients users rest

/-- `send` handler from main.rs: authenticate the author, validate every
recipient, then `add_message_at_present`; any `eyre` failure of the append
maps to an internal server error. -/
def send (bhash : BHash) (clock : Except Unit Nat) (state : State)
    (password : String) (message : Message) : Except StatusCode Unit × State :=
  match auth bhash state message.author password BCRYPT_COST SALT with
  | .error _ => (.error .INTERNAL_SERVER_ERROR, state)
  | .ok false => (.error .UNAUTHORIZED, state)
  | .ok true =>
    if checkRecipients state.users message.recipients then
      match State.add_message_at_present clock state message with
      | (.error _, s2) => (.error .INTERNAL_SERVER_ERROR, s2)
      | (.ok _, s2) => (.ok (), s2)
    else
      (.error .NOT_ACCEPTABLE, state)

/-- Outcome of the `recv` handler. `panic` models the `.unwrap()` on the
clock read at main.rs line 173, which aborts the handler instead of
producing a status code. -/
inductive RecvResult where
  | panic
  | err (code : StatusCode)
  | ok (entries : List (Nat × Message))
deriving Repr, DecidableEq

/-- The query in `recv`: iterate the log in ascending key order, keep keys
with `ts < current_time && ts > recv_info.timestamp`, and inside each kept
vector keep the messages whose `recipients` contains the querying
username. -/
def recvQuery (messages : MsgLog) (since now : Nat) (username : String) :
    List (Nat × Message) :=
  (messages.filter fun p => p.1 < now && since < p.1).flatMap fun p =>
    (p.2.filter fun msg => msg.recipients.contains username).map fun msg => (p.1, msg)

/-- `recv` handler from main.rs: authenticate, then `unwrap()` the clock
(panicking on failure), then run the filtered query. -/
def recv (bhash : BHash) (clock : Except Unit Nat) (state : State)
    (username password : String) (timestamp : Nat) : RecvResult :=
  match auth bhash state username password BCRYPT_COST SALT with
  | .error _ => .err .INTERNAL_SERVER_ERROR
  | .ok false => .err .UNAUTHORIZED
  | .ok true =>
    match clock with
    | .error _ => .panic
    | .ok current_time => .ok (recvQuery state.messages timestamp current_time username)

/-- The two snapshot files (`USERS_FILE`, `MESSAGES_FILE`); `none` models
a missing/unreadable file, whose read falls back to the empty string,
which then fails to parse. -/
structure SnapshotFs (U M : Type) where
  usersFile : Option U
  messagesFile : Option M

/-- serde_json (de)serialization of the two structures — external to the
repository — modelled as a parameter: one encoder and one fallible decoder
per structure. -/
structure Codec (U M : Type) where
  encUsers : Users → U
  decUsers : U → Option Users
  encMsgs : MsgLog → M
  decMsgs : M → Option MsgLog

/-- The shutdown path of `main` (main.rs lines 79-86): serialize the users
into `USERS_FILE` and the messages into `MESSAGES_FILE`, overwriting both. -/
def saveState {U M : Type} (c : Codec U M) (s : State) : SnapshotFs U M :=
  { usersFile := some (c.encUsers s.users)
    messagesFile := some (c.encMsgs s.messages) }

/-- The startup path of `main` (main.rs lines 36-65): read and parse each
file independently, falling back to the empty structure for whichever file
fails to read or parse. -/
def loadState {U M : Type} (c : Codec U M) (fs : SnapshotFs U M) : State :=
  { users := (fs.usersFile.bind c.decUsers).getD []
    messages := (fs.messagesFile.bind c.decMsgs).getD [] }

/-- Sequential composition of `register` calls, all for the same username,
one password per call: returns the list of outcomes and the final state. -/
def registerSeq (bhash : BHash) (u : String) (pws : List String) (s : State) :
    List (Except StatusCode Unit) × State :=
  match pws with
  | [] => ([], s)
  | p :: rest =>
    ((register bhash s u p).1 :: (registerSeq bhash u rest (register bhash s u p).2).1,
     (registerSeq bhash u rest (register bhash s u p).2).2)

/-- Number of successful outcomes in a list of `register` results. -/
def countOk (rs : List (Except StatusCode Unit)) : Nat :=
  (rs.filter fun r => match r with | .ok _ => true | .error _ => false).length

/-! ### Concrete demonstration values -/

/-- A concrete stand-in for `bcrypt::hash_with_salt` used by witnesses:
deterministic, never failing, ignores cost and salt. -/
def demoBhash : BHash := fun p _ _ => some ("h" ++ p)

/-- A broadcast-style message: empty `recipients`. -/
def demoMsgB : Message := { author := "alice", content := "hi", recipients := [] }

/-- A targeted message addressed to its own author. -/
def demoMsgT : Message := { author := "alice", content := "hi", recipients := ["alice"] }

/-- State with one user and one broadcast-style message at timestamp 5. -/
def demoState : State :=
  { users := [("alice", "hpw")], messages := [(5, [demoMsgB])] }

/-- State with one user and one targeted message at timestamp 5. -/
def demoState2 : State :=
  { users := [("alice", "hpw")], messages := [(5, [demoMsgT])] }

/-! ### Helper lemmas -/

/-- Inverting a successful `recv`: the clock was read successfully and the
entries are exactly the filtered query. -/
theorem recv_ok_inv {bhash : BHash} {clock : Except Unit Nat} {s : State}
    {u p : String} {ts : Nat} {entries : List (Nat × Message)}
    (h : recv bhash clock s u p ts = .ok entries) :
    ∃ now, clock = .ok now ∧ entries = recvQuery s.messages ts now u := by
  unfold recv at h
  cases hA : auth bhash s u p BCRYPT_COST SALT with
  | error e => rw [hA] at h; exact absurd h (by simp)
  | ok b =>
    rw [hA] at h
    cases b with
    | false => exact absurd h (by simp)
    | true =>
      cases clock with
      | error e => exact absurd h (by simp)
      | ok now => exact ⟨now, rfl, by simpa using h.symm⟩

/-- Membership in the `recv` query forces the strict time bounds and a
recipient match. -/
theorem mem_recvQuery {msgs : MsgLog} {since now t2 : Nat} {u : String}
    {m : Message} (h : (t2, m) ∈ recvQuery msgs since now u) :
    since < t2 ∧ t2 < now ∧ m.recipients.contains u = true := by
  simp only [recvQuery, List.mem_flatMap, List.mem_filter, List.mem_map,
    Bool.and_eq_true, decide_eq_true_eq, Prod.mk.injEq] at h
  obtain ⟨⟨k, ms⟩, ⟨hmem, hnow, hsince⟩, m2, ⟨hm2, hrec⟩, hk, hmm⟩ := h
  subst hk
  subst hmm
  exact ⟨hsince, hnow, hrec⟩

/-- If a recipient in the list is unknown, the validation loop rejects. -/
theorem checkRecipients_false_of_mem {users : Users} {rs : List String} {r : String}
    (hm : r ∈ rs) (hk : containsKey users r = false) :
    checkRecipients users rs = false := by
  induction rs with
  | nil => cases hm
  | cons a rest ih =>
    cases hm with
    | head => simp [checkRecipients, hk]
    | tail _ hmem => simp [checkRecipients, ih hmem]

/-- Inserting a key makes it present. -/
theorem containsKey_usersInsert_self (m : Users) (k v : String) :
    containsKey (usersInsert m k v) k = true := by
  induction m with
  | nil => simp [usersInsert, containsKey]
  | cons a rest ih =>
    obtain ⟨k2, v2⟩ := a
    simp only [usersInsert]
    cases h : (k2 == k) with
    | true => simp [containsKey]
    | false => simp [containsKey, h, ih]

/-- `register` on an existing username: conflict, state untouched. -/
theorem register_conflict {bhash : BHash} {s : State} {u : String} (p : String)
    (h : containsKey s.users u = true) :
    register bhash s u p = (.error .CONFLICT, s) := by
  simp [register, h]

/-- A whole `registerSeq` from a state that already has the username:
every call conflicts and the state never moves. -/
theorem registerSeq_conflict {bhash : BHash} {s : State} {u : String}
    (pws : List String) (h : containsKey s.users u = true) :
    registerSeq bhash u pws s =
      (pws.map fun _ => Except.error StatusCode.CONFLICT, s) := by
  induction pws with
  | nil => simp [registerSeq]
  | cons p rest ih => simp [registerSeq, register_conflict p h, ih]

/-- A successful `register` leaves the username present. -/
theorem register_ok_contains {bhash : BHash} {s : State} {u p : String}
    (h : (register bhash s u p).1 = .ok ()) :
    containsKey (register bhash s u p).2.users u = true := by
  cases hc : containsKey s.users u with
  | true => rw [register_conflict p hc] at h; exact absurd h (by simp)
  | false =>
    cases hb : bhash p BCRYPT_COST SALT with
    | none => simp [register, hc, hb] at h
    | some hash => simp [register, hc, hb, containsKey_usersInsert_self]

/-- Counting successes: empty list. -/
theorem countOk_nil : countOk [] = 0 := rfl

/-- Counting successes: successful head. -/
theorem countOk_cons_ok (rs : List (Except StatusCode Unit)) :
    countOk (.ok () :: rs) = countOk rs + 1 := by
  simp [countOk, List.filter]

/-- Counting successes: failed head. -/
theorem countOk_cons_err (c : StatusCode) (rs : List (Except StatusCode Unit)) :
    countOk (.error c :: rs) = countOk rs := by
  simp [countOk, List.filter]

/-- Counting successes: an all-conflict run has none. -/
theorem countOk_map_const_err (pws : List String) (c : StatusCode) :
    countOk (pws.map fun _ => Except.error c) = 0 := by
  induction pws with
  | nil => rfl
  | cons p rest ih => simpa [countOk_cons_err] using ih

/-- A key absent from every entry is not found. -/
theorem btreeGet_eq_nil {l : MsgLog} {t : Nat} (h : ∀ e ∈ l, e.1 ≠ t) :
    btreeGet l t = [] := by
  induction l with
  | nil => rfl
  | cons a rest ih =>
    obtain ⟨k, ms⟩ := a
    simp only [btreeGet]
    rw [if_neg (h (k, ms) (by simp))]
    exact ih fun e he => h e (by simp [he])

/-- Keys after an insert-push: the new key or one that was already there. -/
theorem keys_btreeInsertPush {t : Nat} {m : Message} {l : MsgLog} :
    ∀ b ∈ btreeInsertPush t m l, b.1 = t ∨ ∃ e ∈ l, b.1 = e.1 := by
  induction l with
  | nil =>
    intro b hb
    simp only [btreeInsertPush, List.mem_singleton] at hb
    exact Or.inl (by simp [hb])
  | cons a rest ih =>
    obtain ⟨k, ms⟩ := a
    intro b hb
    simp only [btreeInsertPush] at hb
    by_cases h1 : t < k
    · rw [if_pos h1] at hb
      rcases List.mem_cons.mp hb with hb1 | hb2
      · exact Or.inl (by simp [hb1])
      · exact Or.inr ⟨b, hb2, rfl⟩
    · rw [if_neg h1] at hb
      by_cases h2 : t = k
      · rw [if_pos h2] at hb
        rcases List.mem_cons.mp hb with hb1 | hb2
        · exact Or.inr ⟨(k, ms), by simp, by simp [hb1]⟩
        · exact Or.inr ⟨b, by simp [hb2], rfl⟩
      · rw [if_neg h2] at hb
        rcases List.mem_cons.mp hb with hb1 | hb2
        · exact Or.inr ⟨(k, ms), by simp, by simp [hb1]⟩
        · rcases ih b hb2 with hl | ⟨e, he, hee⟩
          · exact Or.inl hl
          · exact Or.inr ⟨e, by simp [he], hee⟩

/-- Insert-push preserves the strictly increasing key invariant. -/
theorem sortedKeys_btreeInsertPush {t : Nat} {m : Message} {l : MsgLog}
    (h : SortedKeys l) : SortedKeys (btreeInsertPush t m l) := by
  induction l with
  | nil => simp [btreeInsertPush]
  | cons a rest ih =>
    obtain ⟨k, ms⟩ := a
    obtain ⟨hall, hrest⟩ := List.pairwise_cons.mp h
    simp only [btreeInsertPush]
    by_cases h1 : t < k
    · rw [if_pos h1]
      refine List.Pairwise.cons ?_ (List.Pairwise.cons hall hrest)
      intro b hb
      rcases List.mem_cons.mp hb with hb1 | hb2
      · simp [hb1, h1]
      · exact lt_trans h1 (hall b hb2)
    · rw [if_neg h1]
      by_cases h2 : t = k
      · rw [if_pos h2]
        exact List.Pairwise.cons hall hrest
      · rw [if_neg h2]
        refine List.Pairwise.cons ?_ (ih hrest)
        intro b hb
        rcases keys_btreeInsertPush b hb with hbt | ⟨e, he, hbe⟩
        · rw [hbt]; omega
        · rw [hbe]; exact hall e he

/-- Under the key invariant, an insert-push appends to the vector at its
key and creates nothing else there. -/
theorem btreeGet_btreeInsertPush {t : Nat} {m : Message} {l : MsgLog}
    (h : SortedKeys l) :
    btreeGet (btreeInsertPush t m l) t = btreeGet l t ++ [m] := by
  induction l with
  | nil => simp [btreeInsertPush, btreeGet]
  | cons a rest ih =>
    obtain ⟨k, ms⟩ := a
    obtain ⟨hall, hrest⟩ := List.pairwise_cons.mp h
    simp only [btreeInsertPush]
    by_cases h1 : t < k
    · rw [if_pos h1]
      simp only [btreeGet, if_pos rfl]
      rw [if_neg (by omega : ¬ k = t)]
      rw [btreeGet_eq_nil fun e he => by have := hall e he; omega]
      simp
    · by_cases h2 : t = k
      · rw [if_neg h1, if_pos h2]
        subst h2
        simp [btreeGet]
      · rw [if_neg h1, if_neg h2]
        simp only [btreeGet]
        rw [if_neg (by omega : ¬ k = t), if_neg (by omega : ¬ k = t)]
        exact ih hrest

/-- The chosen intermediate and final states for the duplicate-timestamp
append demonstration. -/
def demoStateA : State :=
  { users := [("alice", "hpw")], messages := [(5, [demoMsgT, demoMsgT])] }

/-- Final state after two appends at timestamp 5. -/
def demoStateB : State :=
  { users := [("alice", "hpw")], messages := [(5, [demoMsgT, demoMsgT, demoMsgB])] }

/-- The identity instantiation of the serialization parameter, showing the
round-trip hypotheses are satisfiable. -/
def idCodec : Codec Users MsgLog :=
  { encUsers := id, decUsers := some, encMsgs := id, decMsgs := some }

/-! ### Claim theorems -/

/-- Claim C1, counterexample: the state holds an in-range message with
empty `recipients` at timestamp 5, the querier is authorized (the call
returns an `ok`), the query window is `0 < 5 < 10` — yet the result is
empty, so a recipients-absent message is NOT treated as broadcast,
refuting the claim. -/
theorem C1_broadcast_counterexample :
    demoMsgB.recipients = [] ∧
    demoMsgB ∈ btreeGet demoState.messages 5 ∧
    (0 : Nat) < 5 ∧ (5 : Nat) < 10 ∧
    recv demoBhash (Except.ok 10) demoState "alice" "pw" 0 = .ok [] := by
  decide

/-- Claim C1, amended: for every retrieval, an in-range message whose
`recipients` list is empty is never included in the result — the filter
keeps only messages whose `recipients` contains the querying username, so
there is no broadcast delivery. -/
theorem recv_excludes_empty_recipients (bhash : BHash) (clock : Except Unit Nat)
    (s : State) (u p : String) (ts t2 : Nat) (m : Message)
    (entries : List (Nat × Message))
    (hr : recv bhash clock s u p ts = .ok entries)
    (hm : m.recipients = []) :
    (t2, m) ∉ entries := by
  obtain ⟨now, hclock, hent⟩ := recv_ok_inv hr
  subst hent
  intro hmem
  have h3 := (mem_recvQuery hmem).2.2
  rw [hm] at h3
  simp at h3

/-- Witness for the amended C1 at concrete inputs. -/
theorem recv_excludes_empty_recipients_witness :
    recv demoBhash (Except.ok 10) demoState2 "alice" "pw" 0 = .ok [(5, demoMsgT)] ∧
    demoMsgB.recipients = [] ∧
    (7, demoMsgB) ∉ [(5, demoMsgT)] :=
  ⟨by decide, by decide,
    recv_excludes_empty_recipients demoBhash (Except.ok 10) demoState2 "alice" "pw"
      0 7 demoMsgB [(5, demoMsgT)] (by decide) (by decide)⟩

/-- Claim C2, divergence demonstration: an authorized `recv` whose wall
clock read fails does not produce an internal-error response — the
handler `unwrap()`s the clock and panics. -/
theorem recv_clock_failure_panics :
    auth demoBhash demoState "alice" "pw" BCRYPT_COST SALT = .ok true ∧
    recv demoBhash (Except.error ()) demoState "alice" "pw" 0 = .panic := by
  decide

/-- Claim C3: in any sequence of `register` calls for one username, at most
one succeeds; and from any state in which the username is already present,
every call returns `CONFLICT` and the state (hence the stored credential)
is exactly unchanged. -/
theorem register_at_most_one (bhash : BHash) (u : String) (pws : List String)
    (s : State) :
    countOk (registerSeq bhash u pws s).1 ≤ 1 ∧
    (containsKey s.users u = true →
      (registerSeq bhash u pws s).1 =
        (pws.map fun _ => Except.error StatusCode.CONFLICT) ∧
      (registerSeq bhash u pws s).2 = s) := by
  constructor
  · induction pws generalizing s with
    | nil => simp [registerSeq, countOk]
    | cons p rest ih =>
      simp only [registerSeq]
      cases hr : (register bhash s u p).1 with
      | error c =>
        rw [countOk_cons_err]
        exact ih ((register bhash s u p).2)
      | ok uu =>
        cases uu
        rw [countOk_cons_ok]
        rw [registerSeq_conflict rest (register_ok_contains hr)]
        rw [countOk_map_const_err]
  · intro h
    rw [registerSeq_conflict pws h]
    exact ⟨rfl, rfl⟩

/-- Witness for C3 at concrete inputs: two further attempts after "alice"
is registered both conflict and move nothing. -/
theorem register_at_most_one_witness :
    countOk (registerSeq demoBhash "alice" ["a", "b"] demoState2).1 ≤ 1 ∧
    containsKey demoState2.users "alice" = true ∧
    (registerSeq demoBhash "alice" ["a", "b"] demoState2).1 =
      (["a", "b"].map fun _ => Except.error StatusCode.CONFLICT) ∧
    (registerSeq demoBhash "alice" ["a", "b"] demoState2).2 = demoState2 :=
  ⟨(register_at_most_one demoBhash "alice" ["a", "b"] demoState2).1, by decide,
    ((register_at_most_one demoBhash "alice" ["a", "b"] demoState2).2 (by decide)).1,
    ((register_at_most_one demoBhash "alice" ["a", "b"] demoState2).2 (by decide)).2⟩

/-- Claim C4: appending a message whose author is not registered fails
with `NonExistentMessageAuthor` and returns the state exactly as it was. -/
theorem add_message_nonexistent_author (s : State) (m : Message) (t : Nat)
    (h : containsKey s.users m.author = false) :
    State.add_message_at_present (Except.ok t) s m =
      (.error .nonExistentMessageAuthor, s) := by
  simp [State.add_message_at_present, h]

/-- Witness for C4 at concrete inputs. -/
theorem add_message_nonexistent_author_witness :
    containsKey demoState.users "mallory" = false ∧
    State.add_message_at_present (Except.ok 7) demoState
        { author := "mallory", content := "x", recipients := [] } =
      (.error .nonExistentMessageAuthor, demoState) :=
  ⟨by decide,
    add_message_nonexistent_author demoState
      { author := "mallory", content := "x", recipients := [] } 7 (by decide)⟩

/-- Claim C5: a send whose author authenticates but that names at least one
unknown recipient fails with `NOT_ACCEPTABLE` and returns the state — in
particular the message log — exactly unchanged. -/
theorem send_unknown_recipient (bhash : BHash) (clock : Except Unit Nat)
    (s : State) (p : String) (m : Message) (r : String)
    (hauth : auth bhash s m.author p BCRYPT_COST SALT = .ok true)
    (hr : r ∈ m.recipients) (hk : containsKey s.users r = false) :
    send bhash clock s p m = (.error .NOT_ACCEPTABLE, s) := by
  simp [send, hauth, checkRecipients_false_of_mem hr hk]

/-- Witness for C5 at concrete inputs. -/
theorem send_unknown_recipient_witness :
    auth demoBhash demoState2 "alice" "pw" BCRYPT_COST SALT = .ok true ∧
    "mallory" ∈ ["mallory"] ∧
    containsKey demoState2.users "mallory" = false ∧
    send demoBhash (Except.ok 9) demoState2 "pw"
        { author := "alice", content := "yo", recipients := ["mallory"] } =
      (.error .NOT_ACCEPTABLE, demoState2) :=
  ⟨by decide, by simp, by decide,
    send_unknown_recipient demoBhash (Except.ok 9) demoState2 "pw"
      { author := "alice", content := "yo", recipients := ["mallory"] } "mallory"
      (by decide) (by simp) (by decide)⟩

/-- Claim C6: every entry of a successful `recv` with clock value `now` and
lower bound `since` has its timestamp strictly between the two bounds. -/
theorem recv_entries_in_range (bhash : BHash) (s : State) (u p : String)
    (since now : Nat) (entries : List (Nat × Message)) (e : Nat × Message)
    (hr : recv bhash (Except.ok now) s u p since = .ok entries)
    (he : e ∈ entries) : since < e.1 ∧ e.1 < now := by
  obtain ⟨now2, hclock, hent⟩ := recv_ok_inv hr
  obtain ⟨hn⟩ : now = now2 := by cases hclock; rfl
  subst hent
  obtain ⟨t2, m2⟩ := e
  obtain ⟨hsince, hnow, _⟩ := mem_recvQuery he
  exact ⟨hsince, hnow⟩

/-- Witness for C6 at concrete inputs. -/
theorem recv_entries_in_range_witness :
    recv demoBhash (Except.ok 10) demoState2 "alice" "pw" 0 = .ok [(5, demoMsgT)] ∧
    ((0 : Nat) < 5 ∧ (5 : Nat) < 10) :=
  ⟨by decide,
    recv_entries_in_range demoBhash demoState2 "alice" "pw" 0 10 [(5, demoMsgT)]
      (5, demoMsgT) (by decide) (by simp)⟩

/-- Claim C7: two successful appends landing on the same timestamp second
both survive: the final vector at that key is the original one extended by
the two messages in insertion order, and each append grows the vector at
that key by exactly one. -/
theorem append_same_timestamp (s s1 s2 : State) (m1 m2 : Message) (t : Nat)
    (hs : SortedKeys s.messages)
    (h1 : State.add_message_at_present (Except.ok t) s m1 = (.ok (), s1))
    (h2 : State.add_message_at_present (Except.ok t) s1 m2 = (.ok (), s2)) :
    btreeGet s2.messages t = btreeGet s.messages t ++ [m1, m2] ∧
    (btreeGet s2.messages t).length = (btreeGet s1.messages t).length + 1 := by
  unfold State.add_message_at_present at h1 h2
  dsimp only at h1 h2
  cases hc1 : containsKey s.users m1.author with
  | false => rw [hc1] at h1; simp at h1
  | true =>
    rw [hc1] at h1
    simp only [if_true, Prod.mk.injEq, true_and] at h1
    subst h1
    dsimp only at h2
    cases hc2 : containsKey s.users m2.author with
    | false => rw [hc2] at h2; simp at h2
    | true =>
      rw [hc2] at h2
      simp only [if_true, Prod.mk.injEq, true_and] at h2
      subst h2
      dsimp only
      have hsort1 : SortedKeys (btreeInsertPush t m1 s.messages) :=
        sortedKeys_btreeInsertPush hs
      have e1 : btreeGet (btreeInsertPush t m1 s.messages) t =
          btreeGet s.messages t ++ [m1] := btreeGet_btreeInsertPush hs
      have e2 : btreeGet (btreeInsertPush t m2 (btreeInsertPush t m1 s.messages)) t =
          btreeGet (btreeInsertPush t m1 s.messages) t ++ [m2] :=
        btreeGet_btreeInsertPush hsort1
      refine ⟨?_, ?_⟩
      · rw [e2, e1]; simp
      · rw [e2]; simp

/-- Witness for C7 at concrete inputs: appending twice at timestamp 5. -/
theorem append_same_timestamp_witness :
    SortedKeys demoState2.messages ∧
    (btreeGet demoStateB.messages 5 =
        btreeGet demoState2.messages 5 ++ [demoMsgT, demoMsgB] ∧
      (btreeGet demoStateB.messages 5).length =
        (btreeGet demoStateA.messages 5).length + 1) :=
  ⟨by decide,
    append_same_timestamp demoState2 demoStateA demoStateB demoMsgT demoMsgB 5
      (by decide) (by decide) (by decide)⟩

/-- Claim C8: authenticating an unknown username with any password whose
hashing succeeds yields `ok false` — an ordinary negative answer, not the
error used for hashing failures. -/
theorem auth_unknown_user_false (bhash : BHash) (s : State) (u p : String)
    (cost : Nat) (salt : List Nat) (h : String)
    (hu : containsKey s.users u = false) (hh : bhash p cost salt = some h) :
    auth bhash s u p cost salt = .ok false := by
  simp [auth, hh, hu]

/-- Witness for C8 at concrete inputs. -/
theorem auth_unknown_user_false_witness :
    containsKey demoState.users "mallory" = false ∧
    demoBhash "pw" BCRYPT_COST SALT = some "hpw" ∧
    auth demoBhash demoState "mallory" "pw" BCRYPT_COST SALT = .ok false :=
  ⟨by decide, by decide,
    auth_unknown_user_false demoBhash demoState "mallory" "pw" BCRYPT_COST SALT
      "hpw" (by decide) (by decide)⟩

/-- Claim C9: for any state, saving both structures and loading them back
reproduces the same users map and the same timestamp-to-messages map,
provided the external serializer round-trips each structure (the two
hypotheses stand for serde_json's behavior, which is outside this
repository). -/
theorem save_load_roundtrip {U M : Type} (c : Codec U M) (s : State)
    (hU : c.decUsers (c.encUsers s.users) = some s.users)
    (hM : c.decMsgs (c.encMsgs s.messages) = some s.messages) :
    loadState c (saveState c s) = s := by
  simp [loadState, saveState, hU, hM]

/-- Witness for C9 at a concrete non-empty state, with a concrete codec. -/
theorem save_load_roundtrip_witness :
    demoState2.users ≠ [] ∧ demoState2.messages ≠ [] ∧
    loadState idCodec (saveState idCodec demoState2) = demoState2 :=
  ⟨by decide, by decide, save_load_roundtrip idCodec demoState2 rfl rfl⟩

/-- Claim C10: every message a successful `recv` returns lists the querying
username among its recipients; hence a message whose recipients do not
include `u` — the author's own targeted message included — is never
returned to `u`. -/
theorem recv_only_listed_recipients (bhash : BHash) (clock : Except Unit Nat)
    (s : State) (u p : String) (ts : Nat) (entries : List (Nat × Message))
    (e : Nat × Message)
    (hr : recv bhash clock s u p ts = .ok entries) (he : e ∈ entries) :
    e.2.recipients.contains u = true := by
  obtain ⟨now, hclock, hent⟩ := recv_ok_inv hr
  subst hent
  obtain ⟨t2, m2⟩ := e
  exact (mem_recvQuery he).2.2

/-- Witness for C10 at concrete inputs. -/
theorem recv_only_listed_recipients_witness :
    recv demoBhash (Except.ok 10) demoState2 "alice" "pw" 0 = .ok [(5, demoMsgT)] ∧
    (5, demoMsgT).2.recipients.contains "alice" = true :=
  ⟨by decide,
    recv_only_listed_recipients demoBhash (Except.ok 10) demoState2 "alice" "pw" 0
      [(5, demoMsgT)] (5, demoMsgT) (by decide) (by simp)⟩

end Pigeon
